import Mathlib

/-!
Verification development for the voice-assistant audio/session pipeline.

The TypeScript sources are shallowly embedded here:
* JavaScript strings are modelled as `List Char` (UTF-16 code units; all
  constants involved are ASCII, where code units and code points agree).
* `Float` sample arithmetic is modelled over `ℚ` (the resampler performs
  only exactly-representable index arithmetic in the properties proved).
* Asynchronous code is modelled as explicit state machines whose steps are
  the atomic blocks between `await` suspension points; the adversarial
  completion order of outstanding synthesis calls is a separate event kind.
-/

/-! ## JavaScript string primitives on `List Char` -/

/-- JS `\s` / `String.prototype.trim` whitespace class (ASCII relevant part). -/
def isWsChar (c : Char) : Bool := c.isWhitespace

/-- Sentence-ending punctuation `[.!?]` from the chunker's split pattern. -/
def isSentencePunct (c : Char) : Bool := c = '.' || c = '!' || c = '?'

/-- The regex class `[A-Z]` (ASCII uppercase only, as in JS). -/
def isUpperAZ (c : Char) : Bool := 65 ≤ c.toNat && c.toNat ≤ 90

/-- JS `String.prototype.trim`. -/
def jsTrim (s : List Char) : List Char :=
  (((s.dropWhile isWsChar).reverse).dropWhile isWsChar).reverse

/-- JS `String.prototype.toLowerCase` (ASCII-relevant part). -/
def jsLower (s : List Char) : List Char := s.map Char.toLower

/-! ## StreamingTTSManager.splitIntoSentences (src/unnamed/part_002, lines 73-121)

The split `text.split(/(?<=[.!?])\s+(?=[A-Z])/g)` removes every maximal
whitespace run that is directly preceded by `[.!?]` and directly followed by
`[A-Z]`.  It is embedded as a single left-to-right scan: `ws` holds a
whitespace run that may yet turn out to be a separator, `acc` the current
segment, `out` the finished segments. -/

structure SplitSt where
  out : List (List Char)
  acc : List Char
  ws : List Char
deriving DecidableEq

/-- One character of the sentence-boundary scan. -/
def splitStep (st : SplitSt) (c : Char) : SplitSt :=
  if st.ws.isEmpty then
    if (st.acc.getLast?.map isSentencePunct).getD false && isWsChar c then
      { st with ws := [c] }
    else
      { st with acc := st.acc ++ [c] }
  else
    if isWsChar c then
      { st with ws := st.ws ++ [c] }
    else if isUpperAZ c then
      { out := st.out ++ [st.acc], acc := [c], ws := [] }
    else
      { st with acc := st.acc ++ st.ws ++ [c], ws := [] }

/-- `text.split(/(?<=[.!?])\s+(?=[A-Z])/g)`. -/
def jsSentenceSplit (text : List Char) : List (List Char) :=
  let st := text.foldl splitStep ⟨[], [], []⟩
  st.out ++ [st.acc ++ st.ws]

/-- `minChunkLength` constant of `splitIntoSentences`. -/
def minChunkLength : Nat := 100

/-- Short-text threshold of `splitIntoSentences`. -/
def shortTextThreshold : Nat := 200

/-- One iteration of the `for (const sentence of rawSentences)` recombination
loop; the accumulator is `(combined, currentChunk)`, `jsTrim sentence` is the
loop's `trimmed`. -/
def combineStep (st : List (List Char) × List Char) (sentence : List Char) :
    List (List Char) × List Char :=
  if (jsTrim sentence).isEmpty then st
  else if st.2.length = 0 then (st.1, jsTrim sentence)
  else if st.2.length + (jsTrim sentence).length < minChunkLength * 2 then
    (st.1, st.2 ++ [' '] ++ jsTrim sentence)
  else if minChunkLength ≤ st.2.length then
    (st.1 ++ [st.2], jsTrim sentence)
  else
    (st.1, st.2 ++ [' '] ++ jsTrim sentence)

/-- `StreamingTTSManager.splitIntoSentences`. -/
def splitIntoSentences (text : List Char) : List (List Char) :=
  if text.length < shortTextThreshold then [jsTrim text]
  else
    let rawSentences := jsSentenceSplit text
    let folded := rawSentences.foldl combineStep ([], [])
    let combined :=
      if (jsTrim folded.2).isEmpty then folded.1 else folded.1 ++ [jsTrim folded.2]
    if combined.isEmpty then [jsTrim text] else combined

/-! ### Chunker lemmas -/

theorem mem_of_mem_dropLast {α : Type} {a : α} :
    ∀ {l : List α}, a ∈ l.dropLast → a ∈ l := by
  intro l
  induction l with
  | nil => intro h; simp at h
  | cons x xs ih =>
    cases xs with
    | nil => intro h; simp at h
    | cons y ys =>
      intro h
      rw [List.dropLast_cons₂] at h
      rcases List.mem_cons.mp h with h | h
      · exact h ▸ List.mem_cons_self _ _
      · exact List.mem_cons_of_mem _ (ih h)

theorem combineStep_fst_ge (st : List (List Char) × List Char) (s : List Char)
    (h : ∀ c ∈ st.1, minChunkLength ≤ c.length) :
    ∀ c ∈ (combineStep st s).1, minChunkLength ≤ c.length := by
  unfold combineStep
  split_ifs with h1 h2 h3 h4
  · exact h
  · exact h
  · exact h
  · intro c hc
    rcases List.mem_append.mp hc with hc | hc
    · exact h c hc
    · rw [List.mem_singleton.mp hc]
      exact h4
  · exact h

theorem foldl_combineStep_fst_ge (l : List (List Char))
    (st : List (List Char) × List Char)
    (h : ∀ c ∈ st.1, minChunkLength ≤ c.length) :
    ∀ c ∈ (l.foldl combineStep st).1, minChunkLength ≤ c.length := by
  induction l generalizing st with
  | nil => exact h
  | cons a t ih => exact ih _ (combineStep_fst_ge st a h)

/-- **C6.** The text chunker: input shorter than the 200-character threshold
yields exactly one chunk, the trimmed input; and in every output, every chunk
except possibly the last has at least `minChunkLength = 100` characters. -/
theorem splitIntoSentences_short_and_min_length (text : List Char) :
    (text.length < shortTextThreshold → splitIntoSentences text = [jsTrim text]) ∧
    (∀ c ∈ (splitIntoSentences text).dropLast, minChunkLength ≤ c.length) := by
  constructor
  · intro h
    unfold splitIntoSentences
    rw [if_pos h]
  · intro c hc
    unfold splitIntoSentences at hc
    by_cases h : text.length < shortTextThreshold
    · rw [if_pos h] at hc
      simp at hc
    · rw [if_neg h] at hc
      simp only at hc
      have hall : ∀ d ∈ ((jsSentenceSplit text).foldl combineStep ([], [])).1,
          minChunkLength ≤ d.length :=
        foldl_combineStep_fst_ge _ _ (by intro d hd; simp at hd)
      set folded := (jsSentenceSplit text).foldl combineStep ([], []) with hf
      by_cases h2 : (jsTrim folded.2).isEmpty
      · rw [if_pos h2] at hc
        by_cases h3 : folded.1.isEmpty
        · rw [if_pos h3] at hc
          simp at hc
        · rw [if_neg h3] at hc
          exact hall c (mem_of_mem_dropLast hc)
      · rw [if_neg h2] at hc
        by_cases h3 : (folded.1 ++ [jsTrim folded.2]).isEmpty
        · rw [if_pos h3] at hc
          simp at hc
        · rw [if_neg h3] at hc
          rw [List.dropLast_concat] at hc
          exact hall c hc

/-- Witness for C6 at a concrete short input. -/
theorem splitIntoSentences_short_witness :
    ('H' :: 'i' :: []).length < shortTextThreshold ∧
      splitIntoSentences ('H' :: 'i' :: []) = [jsTrim ('H' :: 'i' :: [])] :=
  ⟨by decide, (splitIntoSentences_short_and_min_length _).1 (by decide)⟩

/-! ## AudioPlayer.resampleChannel (src/src/audio-player.ts, lines 199-215)

Per-channel linear-interpolation resampling.  Float sample values and the
(exactly representable) index arithmetic are modelled over `ℚ`;
`Math.floor` is `Int.floor`, `Math.min` is `min`. -/

/-- `AudioPlayer.resampleChannel`. -/
def resampleChannel (input : List ℚ) (inputRate outputRate : ℚ) : List ℚ :=
  let ratio := inputRate / outputRate
  let outputLength : Nat := (⌊(input.length : ℚ) / ratio⌋).toNat
  (List.range outputLength).map (fun (i : ℕ) =>
    let srcIndex : ℚ := (i : ℚ) * ratio
    let srcIndexFloor : ℤ := ⌊srcIndex⌋
    let srcIndexCeil : ℤ := min (srcIndexFloor + 1) ((input.length : ℤ) - 1)
    let fraction : ℚ := srcIndex - (srcIndexFloor : ℚ)
    input.getD srcIndexFloor.toNat 0 * (1 - fraction) +
      input.getD srcIndexCeil.toNat 0 * fraction)

theorem map_getD_range {α : Type} (d : α) :
    ∀ l : List α, (List.range l.length).map (fun i => l.getD i d) = l := by
  intro l
  induction l with
  | nil => simp
  | cons a t ih =>
    rw [List.length_cons, List.range_succ_eq_map, List.map_cons, List.map_map]
    have h1 : ((fun i => (a :: t).getD i d) ∘ Nat.succ) = fun i => t.getD i d := by
      funext i
      simp
    rw [h1, ih]
    simp

/-- **C9.** Same-rate resampling is the identity: for every PCM channel
buffer and every positive rate `r`, `resampleChannel input r r = input`. -/
theorem resampleChannel_same_rate_id (input : List ℚ) (r : ℚ) (hr : 0 < r) :
    resampleChannel input r r = input := by
  have hratio : r / r = 1 := div_self (ne_of_gt hr)
  have h1 : resampleChannel input r r
      = (List.range input.length).map (fun i => input.getD i 0) := by
    simp only [resampleChannel, hratio, div_one, mul_one, Int.floor_natCast,
      Int.toNat_natCast, Int.cast_natCast, sub_self, mul_zero, add_zero, sub_zero,
      mul_one]
  rw [h1, map_getD_range]

/-- Witness for C9 at a concrete buffer and rate. -/
theorem resampleChannel_same_rate_witness :
    (0 : ℚ) < 48000 ∧
      resampleChannel [(1 : ℚ) / 2, 3, -2] 48000 48000 = [(1 : ℚ) / 2, 3, -2] :=
  ⟨by norm_num, resampleChannel_same_rate_id _ _ (by norm_num)⟩

/-! ## VoiceBridgeServer permission queue (src/unnamed/part_003, lines 630-769)

The server state relevant to permission handling: the FIFO
`pendingPermissions` queue plus two configuration facts the handlers branch
on — whether `onPermissionResponse` is set and whether `currentSessionCode`
names a session.  Externally visible effects (callback invocations, SSE push
events, scheduled `showCurrentPermission`, transcripts forwarded to the
assistant) are collected as an ordered output list. -/

/-- JS `hay.includes(needle)` on strings. -/
def jsIncludes (hay needle : List Char) : Bool :=
  hay.tails.any (fun t => needle.isPrefixOf t)

/-- JS `String.prototype.toUpperCase` (ASCII-relevant part). -/
def jsUpper (s : List Char) : List Char := s.map Char.toUpper

structure PendingPermission where
  id : List Char
  tool : List Char
  prompt : List Char
deriving DecidableEq

structure BridgeState where
  pendingPermissions : List PendingPermission
  hasCallback : Bool
  hasSession : Bool
deriving DecidableEq

inductive BridgeOut where
  | callbackCall (id : List Char) (approved : Bool) (alwaysAllow : Bool)
  | permissionHandledEvent (id : List Char) (approved : Bool) (remaining : Nat)
  | scheduleShowNext
  | forwardTranscript (t : List Char)
deriving DecidableEq

/-- `findIndex` + `splice(index, 1)` of `handlePermissionAndAdvance`:
remove the first queue entry whose id matches, if any. -/
def removeFirstById : List PendingPermission → List Char → List PendingPermission
  | [], _ => []
  | p :: ps, i => if p.id = i then ps else p :: removeFirstById ps i

/-- `VoiceBridgeServer.handlePermissionAndAdvance`. -/
def handlePermissionAndAdvance (st : BridgeState) (requestId : List Char)
    (approved alwaysAllow : Bool) : BridgeState × List BridgeOut :=
  ({ st with pendingPermissions := removeFirstById st.pendingPermissions requestId },
    (if st.hasCallback then [.callbackCall requestId approved alwaysAllow] else []) ++
      (if st.hasSession then
        .permissionHandledEvent requestId approved
            (removeFirstById st.pendingPermissions requestId).length ::
          (if 0 < (removeFirstById st.pendingPermissions requestId).length then
            [.scheduleShowNext] else [])
      else []))

def apostropheChar : Char := Char.ofNat 39

def alwaysAllowPhrases : List (List Char) :=
  ["always allow".toList, "always yes".toList, "allow always".toList,
    "always approve".toList]

def allowAllPhrases : List (List Char) :=
  ["allow all".toList, "yes to all".toList, "approve all".toList,
    "accept all".toList]

def denyAllPhrases : List (List Char) :=
  ["deny all".toList, "no to all".toList, "reject all".toList,
    "cancel all".toList]

def approvalPhrases : List (List Char) :=
  ["yes".toList, "yeah".toList, "yep".toList, "approve".toList, "allow".toList,
    "go ahead".toList, "do it".toList, "okay".toList, "ok".toList]

def denialPhrases : List (List Char) :=
  ["no".toList, "nope".toList, "deny".toList, "stop".toList, "cancel".toList,
    "don".toList ++ [apostropheChar, 't'], "reject".toList]

/-- `transcript.toLowerCase().trim()`. -/
def lowerOf (transcript : List Char) : List Char := jsTrim (jsLower transcript)

/-- `phrases.some(phrase => lower.includes(phrase))`. -/
def matchesAny (phrases : List (List Char)) (lower : List Char) : Bool :=
  phrases.any (fun p => jsIncludes lower p)

/-- The `for (const id of allIds) this.handlePermissionAndAdvance(id, d, false)`
loops of the batch branches. -/
def resolveAllLoop (st : BridgeState) (ids : List (List Char)) (approved : Bool) :
    BridgeState × List BridgeOut :=
  ids.foldl (fun acc i =>
    ((handlePermissionAndAdvance acc.1 i approved false).1,
      acc.2 ++ (handlePermissionAndAdvance acc.1 i approved false).2)) (st, [])

/-- `VoiceBridgeServer.checkForPermissionResponse`; returns (handled, state,
outputs). -/
def checkForPermissionResponse (st : BridgeState) (transcript : List Char) :
    Bool × BridgeState × List BridgeOut :=
  if st.pendingPermissions.isEmpty then (false, st, [])
  else if matchesAny allowAllPhrases (lowerOf transcript) then
    (true, resolveAllLoop st (st.pendingPermissions.map (fun p => p.id)) true)
  else if matchesAny denyAllPhrases (lowerOf transcript) then
    (true, resolveAllLoop st (st.pendingPermissions.map (fun p => p.id)) false)
  else if matchesAny alwaysAllowPhrases (lowerOf transcript) then
    (true, handlePermissionAndAdvance st
      (st.pendingPermissions.headD ⟨[], [], []⟩).id true true)
  else if matchesAny approvalPhrases (lowerOf transcript) &&
      !(matchesAny denialPhrases (lowerOf transcript)) then
    (true, handlePermissionAndAdvance st
      (st.pendingPermissions.headD ⟨[], [], []⟩).id true false)
  else if matchesAny denialPhrases (lowerOf transcript) &&
      !(matchesAny approvalPhrases (lowerOf transcript)) then
    (true, handlePermissionAndAdvance st
      (st.pendingPermissions.headD ⟨[], [], []⟩).id false false)
  else (false, st, [])

/-- Transcript-handling tail of `VoiceBridgeServer.handleAudio`: consume the
transcript as a permission response, or else forward it to the assistant via
`this.onTranscript`; the final `Bool` is the `isPermissionResponse` flag of
the HTTP reply. -/
def handleAudioDispatch (st : BridgeState) (transcript : List Char) :
    BridgeState × List BridgeOut × Bool :=
  if (checkForPermissionResponse st transcript).1 then
    ((checkForPermissionResponse st transcript).2.1,
      (checkForPermissionResponse st transcript).2.2, true)
  else
    ((checkForPermissionResponse st transcript).2.1,
      (checkForPermissionResponse st transcript).2.2 ++
        [.forwardTranscript transcript], false)

/-- The subsequence of permission-response-callback invocations in an output
log, as (id, approved, alwaysAllow) triples. -/
def callbackLog (outs : List BridgeOut) : List (List Char × Bool × Bool) :=
  outs.filterMap (fun o => match o with
    | .callbackCall i a aa => some (i, a, aa)
    | _ => none)

theorem callbackLog_append (xs ys : List BridgeOut) :
    callbackLog (xs ++ ys) = callbackLog xs ++ callbackLog ys := by
  unfold callbackLog
  rw [List.filterMap_append]

theorem removeFirstById_head (p : PendingPermission) (ps : List PendingPermission) :
    removeFirstById (p :: ps) p.id = ps := by
  unfold removeFirstById
  rw [if_pos rfl]

theorem removeFirstById_not_mem (i : List Char) :
    ∀ l : List PendingPermission, (∀ p ∈ l, p.id ≠ i) → removeFirstById l i = l := by
  intro l
  induction l with
  | nil => intro _; rfl
  | cons p ps ih =>
    intro h
    unfold removeFirstById
    rw [if_neg (h p (List.mem_cons_self _ _)), ih (fun q hq => h q (List.mem_cons_of_mem _ hq))]

theorem resolveAllLoop_drains (approved : Bool) :
    ∀ (ps : List PendingPermission) (cb sess : Bool),
      (resolveAllLoop ⟨ps, cb, sess⟩ (ps.map (fun p => p.id)) approved).1 =
        ⟨[], cb, sess⟩ ∧
      callbackLog (resolveAllLoop ⟨ps, cb, sess⟩ (ps.map (fun p => p.id)) approved).2 =
        (if cb then ps.map (fun p => (p.id, approved, false)) else []) := by
  have main : ∀ (ps : List PendingPermission) (cb sess : Bool) (acc : List BridgeOut),
      ((ps.map (fun p => p.id)).foldl (fun acc i =>
          ((handlePermissionAndAdvance acc.1 i approved false).1,
            acc.2 ++ (handlePermissionAndAdvance acc.1 i approved false).2))
        (⟨ps, cb, sess⟩, acc)).1 = ⟨[], cb, sess⟩ ∧
      callbackLog ((ps.map (fun p => p.id)).foldl (fun acc i =>
          ((handlePermissionAndAdvance acc.1 i approved false).1,
            acc.2 ++ (handlePermissionAndAdvance acc.1 i approved false).2))
        (⟨ps, cb, sess⟩, acc)).2 =
        callbackLog acc ++
          (if cb then ps.map (fun p => (p.id, approved, false)) else []) := by
    intro ps
    induction ps with
    | nil =>
      intro cb sess acc
      constructor
      · rfl
      · simp
    | cons p ps ih =>
      intro cb sess acc
      have hstep : handlePermissionAndAdvance ⟨p :: ps, cb, sess⟩ p.id approved false =
          (⟨ps, cb, sess⟩,
            (if cb then [.callbackCall p.id approved false] else []) ++
              (if sess then
                .permissionHandledEvent p.id approved ps.length ::
                  (if 0 < ps.length then [.scheduleShowNext] else [])
              else [])) := by
        unfold handlePermissionAndAdvance
        rw [removeFirstById_head]
      rw [List.map_cons, List.foldl_cons, hstep]
      obtain ⟨h1, h2⟩ := ih cb sess (acc ++
        ((if cb then [.callbackCall p.id approved false] else []) ++
          (if sess then
            .permissionHandledEvent p.id approved ps.length ::
              (if 0 < ps.length then [.scheduleShowNext] else [])
          else [])))
      refine ⟨h1, ?_⟩
      rw [h2, callbackLog_append, callbackLog_append]
      have hc1 : callbackLog (if cb then [.callbackCall p.id approved false] else []) =
          (if cb then [(p.id, approved, false)] else []) := by
        cases cb <;> rfl
      have hc2 : callbackLog (if sess then
          BridgeOut.permissionHandledEvent p.id approved ps.length ::
            (if 0 < ps.length then [BridgeOut.scheduleShowNext] else [])
        else []) = [] := by
        cases sess
        · rfl
        · show callbackLog (BridgeOut.permissionHandledEvent p.id approved ps.length ::
            (if 0 < ps.length then [BridgeOut.scheduleShowNext] else [])) = []
          by_cases h : 0 < ps.length
          · rw [if_pos h]; rfl
          · rw [if_neg h]; rfl
      rw [hc1, hc2]
      cases cb <;> simp
  intro ps cb sess
  have h := main ps cb sess []
  exact ⟨h.1, by simpa [callbackLog] using h.2⟩

/-- **C2.** With at least one queued permission, a transcript matching an
"allow all"-class phrase resolves every currently queued id as approved —
the permission-response callback fires once per queued id, in queue order,
with `approved = true` — and empties the queue. -/
theorem checkForPermissionResponse_allow_all (st : BridgeState) (transcript : List Char)
    (hne : st.pendingPermissions ≠ [])
    (hcb : st.hasCallback = true)
    (hmatch : matchesAny allowAllPhrases (lowerOf transcript) = true) :
    (checkForPermissionResponse st transcript).1 = true ∧
    (checkForPermissionResponse st transcript).2.1.pendingPermissions = [] ∧
    callbackLog (checkForPermissionResponse st transcript).2.2 =
      st.pendingPermissions.map (fun p => (p.id, true, false)) := by
  obtain ⟨ps, cb, sess⟩ := st
  simp only at hne hcb
  subst hcb
  have hne' : ps.isEmpty = false := by
    cases ps with
    | nil => exact absurd rfl hne
    | cons a l => rfl
  simp only [checkForPermissionResponse, hne', hmatch]
  simp only [Bool.false_eq_true, if_false, if_true]
  obtain ⟨h1, h2⟩ := resolveAllLoop_drains true ps true sess
  refine ⟨trivial, ?_, ?_⟩
  · rw [h1]
  · rw [h2]
    simp

def c2State : BridgeState :=
  ⟨[⟨"p1".toList, "Bash".toList, "Run a command?".toList⟩,
    ⟨"p2".toList, "Edit".toList, "Edit a file?".toList⟩], true, true⟩

def c2Transcript : List Char := "Allow all please".toList

/-- Witness for C2: two queued permissions, transcript "Allow all please". -/
theorem checkForPermissionResponse_allow_all_witness :
    c2State.pendingPermissions ≠ [] ∧ c2State.hasCallback = true ∧
      matchesAny allowAllPhrases (lowerOf c2Transcript) = true ∧
      ((checkForPermissionResponse c2State c2Transcript).1 = true ∧
        (checkForPermissionResponse c2State c2Transcript).2.1.pendingPermissions = [] ∧
        callbackLog (checkForPermissionResponse c2State c2Transcript).2.2 =
          c2State.pendingPermissions.map (fun p => (p.id, true, false))) :=
  ⟨by decide, by decide, by decide,
    checkForPermissionResponse_allow_all c2State c2Transcript (by decide) (by decide)
      (by decide)⟩

/-- **C7.** A transcript matching no batch or always-allow phrase and either
both or neither of the approval/denial vocabularies is not treated as a
permission response: the queue is untouched, nothing is resolved, and the
transcript is forwarded to the assistant as a normal message. -/
theorem ambiguous_transcript_forwarded (st : BridgeState) (transcript : List Char)
    (hAllowAll : matchesAny allowAllPhrases (lowerOf transcript) = false)
    (hDenyAll : matchesAny denyAllPhrases (lowerOf transcript) = false)
    (hAlways : matchesAny alwaysAllowPhrases (lowerOf transcript) = false)
    (hAmb : matchesAny approvalPhrases (lowerOf transcript) =
      matchesAny denialPhrases (lowerOf transcript)) :
    checkForPermissionResponse st transcript = (false, st, []) ∧
    handleAudioDispatch st transcript =
      (st, [.forwardTranscript transcript], false) := by
  have hcheck : checkForPermissionResponse st transcript = (false, st, []) := by
    have ha : (matchesAny approvalPhrases (lowerOf transcript) &&
        !(matchesAny denialPhrases (lowerOf transcript))) = false := by
      rw [hAmb]
      cases matchesAny denialPhrases (lowerOf transcript) <;> rfl
    have hd : (matchesAny denialPhrases (lowerOf transcript) &&
        !(matchesAny approvalPhrases (lowerOf transcript))) = false := by
      rw [hAmb]
      cases matchesAny denialPhrases (lowerOf transcript) <;> rfl
    by_cases hemp : st.pendingPermissions.isEmpty
    · simp only [checkForPermissionResponse, hemp, if_true]
    · simp only [checkForPermissionResponse, hAllowAll, hDenyAll, hAlways, ha, hd,
        Bool.false_eq_true, if_false]
      rw [if_neg hemp]
  refine ⟨hcheck, ?_⟩
  simp only [handleAudioDispatch, hcheck]
  simp

def c7State : BridgeState :=
  ⟨[⟨"p1".toList, "Bash".toList, "Run a command?".toList⟩], true, true⟩

def c7Transcript : List Char := "maybe okay no".toList

/-- Witness for C7: transcript "maybe okay no" matches both vocabularies. -/
theorem ambiguous_transcript_forwarded_witness :
    matchesAny allowAllPhrases (lowerOf c7Transcript) = false ∧
      matchesAny denyAllPhrases (lowerOf c7Transcript) = false ∧
      matchesAny alwaysAllowPhrases (lowerOf c7Transcript) = false ∧
      matchesAny approvalPhrases (lowerOf c7Transcript) =
        matchesAny denialPhrases (lowerOf c7Transcript) ∧
      (checkForPermissionResponse c7State c7Transcript = (false, c7State, []) ∧
        handleAudioDispatch c7State c7Transcript =
          (c7State, [.forwardTranscript c7Transcript], false)) :=
  ⟨by decide, by decide, by decide, by decide,
    ambiguous_transcript_forwarded c7State c7Transcript (by decide) (by decide)
      (by decide) (by decide)⟩

/-- **C10.** Resolving an id that is not in the pending-permission queue is
not rejected and not a no-op: the callback still fires for that id, a
`permissionHandled` event with the unchanged remaining count is still
pushed, and the queue is unmodified. -/
theorem handlePermissionAndAdvance_unknown_id (st : BridgeState)
    (requestId : List Char) (approved alwaysAllow : Bool)
    (hid : ∀ p ∈ st.pendingPermissions, p.id ≠ requestId)
    (hcb : st.hasCallback = true) (hsess : st.hasSession = true) :
    handlePermissionAndAdvance st requestId approved alwaysAllow =
      (st, .callbackCall requestId approved alwaysAllow ::
        .permissionHandledEvent requestId approved st.pendingPermissions.length ::
        (if 0 < st.pendingPermissions.length then [.scheduleShowNext] else [])) := by
  have hrm : removeFirstById st.pendingPermissions requestId = st.pendingPermissions :=
    removeFirstById_not_mem requestId st.pendingPermissions hid
  simp only [handlePermissionAndAdvance, hrm]
  rw [if_pos hcb, if_pos hsess]
  rfl

def c10State : BridgeState :=
  ⟨[⟨"p1".toList, "Bash".toList, "Run a command?".toList⟩], true, true⟩

def c10Id : List Char := "never-queued".toList

/-- Witness for C10 with a one-element queue and an unknown id. -/
theorem handlePermissionAndAdvance_unknown_id_witness :
    (∀ p ∈ c10State.pendingPermissions, p.id ≠ c10Id) ∧
      c10State.hasCallback = true ∧ c10State.hasSession = true ∧
      handlePermissionAndAdvance c10State c10Id true false =
        (c10State, .callbackCall c10Id true false ::
          .permissionHandledEvent c10Id true c10State.pendingPermissions.length ::
          (if 0 < c10State.pendingPermissions.length then [.scheduleShowNext]
            else [])) :=
  ⟨by decide, by decide, by decide,
    handlePermissionAndAdvance_unknown_id c10State c10Id true false (by decide)
      (by decide) (by decide)⟩

/-! ## VoiceBridgeServer.handleConnect (src/unnamed/part_003, lines 275-322)

Sessions live in a code-keyed map; `Map.get` is modelled as `List.find?` on
the code (codes are unique in practice), `Map.delete` as a filter, and the
in-place mutation of the found session as a map over the list.  Timestamps
are `Nat` milliseconds (`Date.now()`); `now - createdAt` matches JS for
`createdAt ≤ now`, which holds for every stored session. -/

/-- `SESSION_CODE_EXPIRY` (5 minutes in ms). -/
def SESSION_CODE_EXPIRY : Nat := 5 * 60 * 1000

structure Session where
  code : List Char
  token : List Char
  createdAt : Nat
  lastActivity : Nat
  connected : Bool
deriving DecidableEq

inductive ConnectOutcome where
  | badRequest
  | notFound
  | expired
  | connectedOk (token : List Char)
deriving DecidableEq

/-- `VoiceBridgeServer.handleConnect` body (after JSON parsing): the HTTP
outcome (`badRequest` = 400, `notFound` = 404, `expired` = 410,
`connectedOk` = 200 with the session token) and the updated session map. -/
def handleConnect (sessions : List Session) (sessionCode : Option (List Char))
    (now : Nat) : ConnectOutcome × List Session :=
  match sessionCode with
  | none => (.badRequest, sessions)
  | some raw =>
    if (jsUpper raw).isEmpty then (.badRequest, sessions)
    else
      match sessions.find? (fun s => s.code == jsUpper raw) with
      | none => (.notFound, sessions)
      | some session =>
        if session.connected = false ∧ SESSION_CODE_EXPIRY < now - session.createdAt then
          (.expired, sessions.filter (fun s => !(s.code == jsUpper raw)))
        else
          (.connectedOk session.token,
            sessions.map (fun s =>
              if s.code == jsUpper raw then
                { s with connected := true, lastActivity := now }
              else s))

/-- **C5.** `connect(code)`: 404 `notFound` when the (uppercased) code is
unknown; 410 `expired` — and the session is deleted — when the session never
connected and the pairing window elapsed since creation; otherwise the
session is marked connected, its last-activity time becomes `now`, and its
token is returned in a success response. -/
theorem handleConnect_spec (sessions : List Session) (raw : List Char) (now : Nat)
    (hnonempty : (jsUpper raw).isEmpty = false) :
    (sessions.find? (fun s => s.code == jsUpper raw) = none →
      handleConnect sessions (some raw) now = (.notFound, sessions)) ∧
    (∀ sess, sessions.find? (fun s => s.code == jsUpper raw) = some sess →
      sess.connected = false → SESSION_CODE_EXPIRY < now - sess.createdAt →
      (handleConnect sessions (some raw) now).1 = .expired ∧
      ∀ t ∈ (handleConnect sessions (some raw) now).2, t.code ≠ jsUpper raw) ∧
    (∀ sess, sessions.find? (fun s => s.code == jsUpper raw) = some sess →
      (sess.connected = true ∨ now - sess.createdAt ≤ SESSION_CODE_EXPIRY) →
      (handleConnect sessions (some raw) now).1 = .connectedOk sess.token ∧
      ∀ t ∈ (handleConnect sessions (some raw) now).2, t.code = jsUpper raw →
        t.connected = true ∧ t.lastActivity = now) := by
  refine ⟨?_, ?_, ?_⟩
  · intro hfind
    simp only [handleConnect, hnonempty, Bool.false_eq_true, if_false, hfind]
  · intro sess hfind hconn hexp
    have hred : handleConnect sessions (some raw) now =
        (.expired, sessions.filter (fun s => !(s.code == jsUpper raw))) := by
      simp only [handleConnect, hnonempty, Bool.false_eq_true, if_false, hfind]
      rw [if_pos ⟨hconn, hexp⟩]
    rw [hred]
    refine ⟨rfl, ?_⟩
    intro t ht
    have := List.of_mem_filter ht
    intro hcode
    rw [← hcode] at this
    simp at this
  · intro sess hfind hok
    have hcond : ¬(sess.connected = false ∧ SESSION_CODE_EXPIRY < now - sess.createdAt) := by
      rcases hok with h | h
      · intro hc
        rw [h] at hc
        exact absurd hc.1 (by simp)
      · intro hc
        exact absurd h (Nat.not_le_of_lt hc.2)
    have hred : handleConnect sessions (some raw) now =
        (.connectedOk sess.token,
          sessions.map (fun s =>
            if s.code == jsUpper raw then
              { s with connected := true, lastActivity := now }
            else s)) := by
      simp only [handleConnect, hnonempty, Bool.false_eq_true, if_false, hfind]
      rw [if_neg hcond]
    rw [hred]
    refine ⟨rfl, ?_⟩
    intro t ht hcode
    rcases List.mem_map.mp ht with ⟨s, _, hs⟩
    by_cases hsc : (s.code == jsUpper raw) = true
    · rw [if_pos hsc] at hs
      rw [← hs]
      exact ⟨rfl, rfl⟩
    · rw [if_neg hsc] at hs
      rw [← hs] at hcode
      exact absurd (by simp [hcode]) hsc

def c5Sessions : List Session :=
  [⟨"ABC234".toList, "tok-1".toList, 100, 100, false⟩]

/-- Witness for C5: an unknown code yields `notFound`; the known code after
the pairing window yields `expired`; the known code inside the window yields
`connectedOk` with the stored token. -/
theorem handleConnect_spec_witness :
    ((jsUpper "zzz999".toList).isEmpty = false ∧
      handleConnect c5Sessions (some "zzz999".toList) 200 = (.notFound, c5Sessions)) ∧
    (handleConnect c5Sessions (some "abc234".toList) 300101).1 = .expired ∧
    (handleConnect c5Sessions (some "abc234".toList) 1000).1 =
      .connectedOk "tok-1".toList :=
  ⟨⟨by decide,
      (handleConnect_spec c5Sessions "zzz999".toList 200 (by decide)).1 (by decide)⟩,
    (((handleConnect_spec c5Sessions "abc234".toList 300101 (by decide)).2.1
      ⟨"ABC234".toList, "tok-1".toList, 100, 100, false⟩ (by decide) (by decide)
      (by decide))).1,
    (((handleConnect_spec c5Sessions "abc234".toList 1000 (by decide)).2.2
      ⟨"ABC234".toList, "tok-1".toList, 100, 100, false⟩ (by decide)
      (Or.inr (by decide)))).1⟩

/-! ## AudioPlayer queue engine (src/src/audio-player.ts)

The player's asynchronous machinery is embedded as a state record together
with functions for each atomic block of code between suspension points.
Queue items are mutable shared objects in the source (the queue array and
the `playItem` closure alias the same objects), so items live in a heap
(`items`, keyed by id) and `queueIds` is the queue array.  MP3 decoding is
modelled as always succeeding (`decodeMP3` is an external collaborator) and
Audify as available, so `pcmData` becomes the item's `pcmLen` byte count.
`playItem`'s pending promise — which `processQueue` is awaiting — is
`playItemPending`; resolving it runs the rest of `processQueue` inline
(promise continuations run before the next timer tick). -/

inductive APStatus where
  | pending | decoding | ready | playing | paused | completed | cancelled
deriving DecidableEq

inductive APPlayState where
  | idle | playing | paused | stopped
deriving DecidableEq

structure APItem where
  id : Nat
  pcmLen : Nat
  pcmData : Option Nat
  status : APStatus
deriving DecidableEq

structure APState where
  items : List APItem
  queueIds : List Nat
  currentIndex : Nat
  state : APPlayState
  currentItem : Option Nat
  pcmOffset : Nat
  writeIntervalActive : Bool
  isProcessingQueue : Bool
  playItemPending : Option Nat
  streamOpen : Bool
deriving DecidableEq

/-- `frameSize * channels * 2` bytes per frame (stereo, 1024-sample frames). -/
def apFrameBytes : Nat := 1024 * 2 * 2

def apGetItem (s : APState) (i : Nat) : Option APItem :=
  s.items.find? (fun it => it.id == i)

def apSetItem (s : APState) (i : Nat) (f : APItem → APItem) : APState :=
  { s with items := s.items.map (fun it => if it.id == i then f it else it) }

def apStatusOf (s : APState) (i : Nat) : Option APStatus :=
  (apGetItem s i).map APItem.status

/-- `AudioPlayer.stop` (lines 492-520): set state `stopped`, clear the write
interval, mark every non-completed queued item `cancelled`, empty the queue,
reset the cursor bookkeeping. -/
def apStop (s : APState) : APState :=
  { s with
    state := .stopped,
    writeIntervalActive := false,
    items := s.items.map (fun it =>
      if it.id ∈ s.queueIds ∧ it.status ≠ .completed then
        { it with status := .cancelled }
      else it),
    queueIds := [],
    currentItem := none,
    pcmOffset := 0,
    isProcessingQueue := false }

/-- `AudioPlayer.skip` (lines 525-546): cancel the current item, clear the
write interval, stop the stream, reset the current-item bookkeeping. -/
def apSkip (s : APState) : APState :=
  match s.currentItem with
  | none => s
  | some cid =>
    { apSetItem s cid (fun it => { it with status := .cancelled }) with
      writeIntervalActive := false,
      currentItem := none,
      pcmOffset := 0 }

/-- Opening block of `AudioPlayer.playItem` (lines 356-380): guard, set the
current item, start the stream, install the write interval; the returned
promise is recorded as pending.  The no-PCM/no-stream guard resolves at once
with the item `completed` (unreachable here because decode is modelled as
always succeeding) without re-entering `processQueue`. -/
def apPlayItemStart (s : APState) (pid : Nat) : APState :=
  match apGetItem s pid with
  | none => s
  | some item =>
    if item.pcmData = none ∨ s.streamOpen = false then
      { apSetItem s pid (fun it => { it with status := .completed }) with
        isProcessingQueue := false }
    else
      { apSetItem s pid (fun it => { it with status := .playing }) with
        currentItem := some pid,
        pcmOffset := 0,
        state := .playing,
        writeIntervalActive := true,
        playItemPending := some pid }

/-- `AudioPlayer.processQueue` (lines 305-351): find the next pending item,
decode it (modelled as succeeding, with `pcmLen` bytes of PCM), open the
stream, and start `playItem`; with no pending item and everything
completed/cancelled, go idle and fire `onComplete`. -/
def apProcessQueue (s : APState) : APState :=
  if s.isProcessingQueue then s
  else
    match s.queueIds.find? (fun i => apStatusOf s i == some .pending) with
    | none =>
      if s.queueIds.all (fun i =>
          apStatusOf s i == some .completed || apStatusOf s i == some .cancelled) then
        { s with state := .idle }
      else s
    | some nid =>
      let s1 := { s with
        isProcessingQueue := true,
        currentIndex := (s.queueIds.indexOf nid) }
      let s2 := apSetItem s1 nid (fun it =>
        { it with pcmData := some it.pcmLen, status := .ready })
      let s3 := { s2 with streamOpen := true }
      apPlayItemStart s3 nid

/-- Resolution of `playItem`'s promise: the `await this.playItem(nextItem)`
in `processQueue` continues — `isProcessingQueue = false`, then the tail call
`this.processQueue()`. -/
def apResolvePlay (s : APState) : APState :=
  apProcessQueue { s with playItemPending := none, isProcessingQueue := false }

/-- One firing of the `setInterval` callback installed by `playItem`
(lines 380-459).  If the interval has been cleared the callback never runs
again.  Volume and mute scaling do not change the control state and are
omitted. -/
def apTick (s : APState) : APState :=
  if s.writeIntervalActive = false then s
  else
    match s.playItemPending with
    | none => s
    | some pid =>
      match apGetItem s pid with
      | none => s
      | some item =>
        if s.currentItem ≠ some pid then
          apResolvePlay { s with writeIntervalActive := false }
        else if s.state = .stopped ∨ item.status = .cancelled then
          apResolvePlay
            (apSetItem { s with writeIntervalActive := false } pid
              (fun it => { it with status := .completed }))
        else if s.state = .paused then s
        else
          match item.pcmData with
          | none => s
          | some len =>
            if len ≤ s.pcmOffset then
              apResolvePlay
                (apSetItem { s with writeIntervalActive := false, currentItem := none }
                  pid (fun it => { it with status := .completed }))
            else if apFrameBytes ≤ len - s.pcmOffset then
              { s with pcmOffset := s.pcmOffset + apFrameBytes }
            else
              { s with pcmOffset := len }

/-- A player with item 0 currently playing mid-PCM and item 1 pending. -/
def c4Init : APState :=
  { items := [⟨0, 50000, some 50000, .playing⟩, ⟨1, 30000, none, .pending⟩],
    queueIds := [0, 1],
    currentIndex := 0,
    state := .playing,
    currentItem := some 0,
    pcmOffset := 4096,
    writeIntervalActive := true,
    isProcessingQueue := true,
    playItemPending := some 0,
    streamOpen := true }

/-- **C4 counterexample.** After `stop()` the player state is `stopped`, and
it is still `stopped` — not `idle` — after the next tick: `stop()` clears the
write interval, so no tick ever runs the completion path that sets `idle`. -/
theorem apStop_claim_counterexample :
    (apTick (apStop c4Init)).state = APPlayState.stopped ∧
      (apTick (apStop c4Init)).state ≠ APPlayState.idle := by
  decide

/-- **C4 (amended).** `stop()` on a queue of pending/playing items marks
every non-completed queued item `cancelled`, leaves zero items in the queue,
and puts the player into state `stopped` — not `idle` — which persists
through subsequent ticks; a second `stop()` causes no error and changes
nothing (`stop` is idempotent). -/
theorem apStop_spec_amended (s : APState) :
    (apStop s).queueIds = [] ∧
    (apStop s).state = .stopped ∧
    apStop (apStop s) = apStop s ∧
    apTick (apStop s) = apStop s ∧
    (∀ it ∈ s.items, it.id ∈ s.queueIds → it.status ≠ .completed →
      { it with status := APStatus.cancelled } ∈ (apStop s).items) := by
  refine ⟨rfl, rfl, ?_, ?_, ?_⟩
  · simp [apStop]
  · unfold apTick
    rw [if_pos (show (apStop s).writeIntervalActive = false from rfl)]
  · intro it hmem hid hst
    show ({ it with status := APStatus.cancelled } : APItem) ∈
      s.items.map (fun it =>
        if it.id ∈ s.queueIds ∧ it.status ≠ APStatus.completed then
          { it with status := APStatus.cancelled }
        else it)
    refine List.mem_map.mpr ⟨it, hmem, ?_⟩
    exact if_pos ⟨hid, hst⟩

/-- Witness for the amended C4 at the concrete player `c4Init`. -/
theorem apStop_spec_amended_witness :
    ((⟨0, 50000, some 50000, .playing⟩ : APItem) ∈ c4Init.items ∧
      0 ∈ c4Init.queueIds ∧
      (⟨0, 50000, some 50000, .playing⟩ : APItem).status ≠ .completed) ∧
    ({ (⟨0, 50000, some 50000, .playing⟩ : APItem) with
        status := APStatus.cancelled } ∈ (apStop c4Init).items ∧
      (apStop c4Init).queueIds = [] ∧ (apStop c4Init).state = .stopped ∧
      apTick (apStop c4Init) = apStop c4Init) :=
  ⟨⟨by decide, by decide, by decide⟩,
    (apStop_spec_amended c4Init).2.2.2.2 _ (by decide) (by decide) (by decide),
    (apStop_spec_amended c4Init).1, (apStop_spec_amended c4Init).2.1,
    (apStop_spec_amended c4Init).2.2.2.1⟩

/-- A player with item 0 (id 0) currently playing and item 1 (id 1) pending. -/
def c8Init : APState :=
  { items := [⟨0, 50000, some 50000, .playing⟩, ⟨1, 30000, none, .pending⟩],
    queueIds := [0, 1],
    currentIndex := 0,
    state := .playing,
    currentItem := some 0,
    pcmOffset := 4096,
    writeIntervalActive := true,
    isProcessingQueue := true,
    playItemPending := some 0,
    streamOpen := true }

/-- **C8.** `skip()` while item 0 plays does set item 0's status to
`cancelled` (never `completed`) — but item 1 never begins playing: `skip`
clears the write interval, so `playItem`'s promise stays pending forever
(`playItemPending` survives, `isProcessingQueue` stays `true`, every
subsequent tick is the identity), and the suspended `processQueue` that would
start item 1 never resumes.  This contradicts the method's own documentation
("Skip current item and play next"). -/
theorem apSkip_stalls_queue :
    apStatusOf (apSkip c8Init) 0 = some .cancelled ∧
    apStatusOf (apSkip c8Init) 1 = some .pending ∧
    (apSkip c8Init).isProcessingQueue = true ∧
    (apSkip c8Init).playItemPending = some 0 ∧
    apTick (apSkip c8Init) = apSkip c8Init ∧
    ∀ n : Nat, apTick^[n] (apSkip c8Init) = apSkip c8Init := by
  refine ⟨by decide, by decide, by decide, by decide, by decide, ?_⟩
  intro n
  exact Function.iterate_fixed (by decide) n

/-! ## StreamingTTSManager playback loop (src/unnamed/part_002, lines 127-288)

`streamText` creates the chunk queue, starts synthesis of chunks 0 and 1,
and runs `playbackLoop`, which at each cursor position awaits that chunk's
own synthesis promise before handing its audio to the playback target.

The loop is embedded as a state machine over the atomic blocks between its
suspension points: `TTSEvent.head` is the top of a loop iteration (up to and
including entering the await on the cursor chunk's promise),
`TTSEvent.body` is the rest of the iteration (enabled only once that promise
has resolved), and `TTSEvent.fire i` is the completion of chunk `i`'s
outstanding `synthesize` call — these may fire in **any** order, which is
exactly the adversarial completion order of the concurrent synthesis calls.
The oracle `synth i` gives chunk `i`'s eventual synthesis result (`none` is
a synthesis failure, routed through the `.catch` handler); `connected n`
gives the value of `isBrowserConnected()` when the `n`-th handoff happens.
`plays` records, in order, each handoff of a chunk's audio to the playback
target (browser bridge or local `AudioPlayer`), as (chunk index, sent to
browser?).  Pause/stop/interrupt are API calls that do not occur in the
scenarios of these claims; `isPaused`/`isStopped` keep their checks in the
embedded code but stay `false`. -/

inductive TStatus where
  | pending | generating | ready | playing | completed | cancelled
deriving DecidableEq

inductive TTSPc where
  | atHead | awaiting | done
deriving DecidableEq

inductive TTSPlayState where
  | idle | generating | playing | paused | stopped
deriving DecidableEq

structure TItem where
  text : List Char
  audioBuffer : Option (List Char)
  status : TStatus
  resolved : Bool
deriving DecidableEq

structure TTSState where
  queue : List TItem
  currentIndex : Nat
  isStopped : Bool
  isPaused : Bool
  state : TTSPlayState
  plays : List (Nat × Bool)
  completeFired : Bool
  pc : TTSPc
deriving DecidableEq

inductive TTSEvent where
  | fire (i : Nat)
  | head
  | body
deriving DecidableEq

/-- `StreamingTTSManager.startGenerating` (lines 169-194), synchronous part:
mark a pending chunk `generating` and put its `synthesize` call in flight. -/
def startGen (s : TTSState) (i : Nat) : TTSState :=
  match s.queue.get? i with
  | none => s
  | some item =>
    if item.status = .pending then
      { s with queue := s.queue.set i { item with status := .generating } }
    else s

/-- Completion of chunk `i`'s `synthesize` call: the `.then`/`.catch`
handlers of `startGenerating`.  Failure marks the chunk `cancelled`;
success stores the buffer and marks it `ready` (unless stopped). -/
def fireCompletion (synth : Nat → Option (List Char)) (s : TTSState) (i : Nat) :
    Option TTSState :=
  match s.queue.get? i with
  | none => none
  | some item =>
    if item.status = .generating ∧ item.resolved = false then
      match synth i with
      | none =>
        some { s with queue := (s.queue.set i
          { item with status := .cancelled, resolved := true }) }
      | some buf =>
        if s.isStopped then
          some { s with queue := s.queue.set i { item with resolved := true } }
        else
          some { s with queue := (s.queue.set i
            { item with
              audioBuffer := some buf,
              status := .ready,
              resolved := true }) }
    else none

/-- Loop exit / `break`: the code after the while loop — `setState('idle')`
and `onComplete` unless stopped. -/
def finishLoop (s : TTSState) : TTSState :=
  { s with
    pc := .done,
    state := .idle,
    completeFired := s.completeFired || !s.isStopped }

/-- Top of a `playbackLoop` iteration (lines 200-220): while-condition,
pause wait, fetch the cursor chunk, start it if still pending, and enter the
await on its promise. -/
def headStep (s : TTSState) : Option TTSState :=
  if s.pc ≠ .atHead then none
  else if s.currentIndex < s.queue.length ∧ s.isStopped = false then
    if s.isPaused then none
    else
      match s.queue.get? s.currentIndex with
      | none => none
      | some item =>
        if item.status = .pending ∨ item.status = .generating then
          some { startGen s s.currentIndex with pc := .awaiting }
        else
          some { s with pc := .awaiting }
  else
    some (finishLoop s)

/-- Rest of a `playbackLoop` iteration (lines 222-281), runnable once the
cursor chunk's promise has resolved: break on stop/cancelled, pre-generate
the next two chunks, hand the ready chunk's audio to the playback target
(re-evaluating `isBrowserConnected()`), mark it completed, and advance. -/
def bodyStep (connected : Nat → Bool) (s : TTSState) : Option TTSState :=
  if s.pc ≠ .awaiting then none
  else
    match s.queue.get? s.currentIndex with
    | none => none
    | some item =>
      if (item.status = .pending ∨ item.status = .generating) ∧
          item.resolved = false then
        none
      else if s.isStopped = true ∨ item.status = .cancelled then
        some (finishLoop s)
      else if item.audioBuffer.isSome ∧ item.status = .ready then
        some { startGen (startGen s (s.currentIndex + 1)) (s.currentIndex + 2) with
          queue := ((startGen (startGen s (s.currentIndex + 1))
            (s.currentIndex + 2)).queue.set s.currentIndex
              { item with status := .completed }),
          state := .playing,
          plays := (s.plays ++ [(s.currentIndex, connected s.plays.length)]),
          currentIndex := s.currentIndex + 1,
          pc := .atHead }
      else
        some { startGen (startGen s (s.currentIndex + 1)) (s.currentIndex + 2) with
          currentIndex := s.currentIndex + 1,
          pc := .atHead }

def applyEvent (synth : Nat → Option (List Char)) (connected : Nat → Bool) :
    TTSEvent → TTSState → Option TTSState
  | .fire i, s => fireCompletion synth s i
  | .head, s => headStep s
  | .body, s => bodyStep connected s

/-- Queue state at the top of `streamText` (lines 127-163): fresh queue of
pending chunks, state `generating`. -/
def initTTSBase (chunks : List (List Char)) : TTSState :=
  { queue := chunks.map (fun t => ⟨t, none, .pending, false⟩),
    currentIndex := 0,
    isStopped := false,
    isPaused := false,
    state := .generating,
    plays := [],
    completeFired := false,
    pc := .atHead }

/-- `StreamingTTSManager.streamText` up to entering `playbackLoop`:
synthesis started for the first two chunks. -/
def initTTS (chunks : List (List Char)) : TTSState :=
  if 1 < chunks.length then startGen (startGen (initTTSBase chunks) 0) 1
  else startGen (initTTSBase chunks) 0

def TTSStep (synth : Nat → Option (List Char)) (connected : Nat → Bool)
    (a b : TTSState) : Prop :=
  ∃ e, applyEvent synth connected e a = some b

def TTSReachable (synth : Nat → Option (List Char)) (connected : Nat → Bool) :
    TTSState → TTSState → Prop :=
  Relation.ReflTransGen (TTSStep synth connected)

/-- Run a concrete event schedule. -/
def runEvents (synth : Nat → Option (List Char)) (connected : Nat → Bool) :
    List TTSEvent → TTSState → Option TTSState
  | [], s => some s
  | e :: rest, s =>
    match applyEvent synth connected e s with
    | none => none
    | some s' => runEvents synth connected rest s'

/-! ### Scheduler invariant: handoffs happen exactly in cursor order -/

/-! ### Scheduler invariant: handoffs happen exactly in cursor order -/

theorem startGen_eq (s : TTSState) (i : Nat) :
    startGen s i = s ∨
    ∃ item, s.queue.get? i = some item ∧ item.status = .pending ∧
      startGen s i =
        { s with queue := s.queue.set i { item with status := TStatus.generating } } := by
  unfold startGen
  split
  · exact Or.inl rfl
  · rename_i item hk
    split
    · rename_i hp
      exact Or.inr ⟨item, hk, hp, rfl⟩
    · exact Or.inl rfl

theorem startGen_fields (s : TTSState) (i : Nat) :
    (startGen s i).plays = s.plays ∧
    (startGen s i).currentIndex = s.currentIndex ∧
    (startGen s i).isStopped = s.isStopped ∧
    (startGen s i).isPaused = s.isPaused ∧
    (startGen s i).pc = s.pc ∧
    (startGen s i).queue.length = s.queue.length := by
  rcases startGen_eq s i with h | ⟨item, -, -, h⟩ <;> rw [h]
  · exact ⟨rfl, rfl, rfl, rfl, rfl, rfl⟩
  · exact ⟨rfl, rfl, rfl, rfl, rfl, by simp⟩

theorem startGen_get? (s : TTSState) (i j : Nat) :
    (startGen s i).queue.get? j = s.queue.get? j ∨
    ∃ it, s.queue.get? j = some it ∧ it.status = .pending ∧
      (startGen s i).queue.get? j = some { it with status := TStatus.generating } := by
  rcases startGen_eq s i with h | ⟨item, hk, hp, h⟩
  · rw [h]
    exact Or.inl rfl
  · by_cases hij : i = j
    · subst hij
      right
      refine ⟨item, hk, hp, ?_⟩
      rw [h]
      exact List.get?_set_eq_of_lt _ (List.get?_eq_some.mp hk).1
    · left
      rw [h]
      exact List.get?_set_ne _ _ hij

/-- Per-item invariant: a `ready` chunk has its audio buffer, no chunk at or
past the cursor is already `playing` or `completed`, and a chunk whose
synthesis promise resolved (with the manager never stopped) is `ready` or
`cancelled`. -/
def invAt (it : TItem) : Prop :=
  (it.status = .ready → it.audioBuffer.isSome = true) ∧
  it.status ≠ .playing ∧
  it.status ≠ .completed ∧
  (it.resolved = true → it.status = .ready ∨ it.status = .cancelled)

/-- Scheduler invariant: the handoff log is exactly `0, 1, …, cursor-1`, the
manager was never stopped, and every chunk at or past the cursor satisfies
`invAt`. -/
def ttsInv (s : TTSState) : Prop :=
  s.plays.map Prod.fst = List.range s.currentIndex ∧
  s.isStopped = false ∧
  ∀ i, s.currentIndex ≤ i → ∀ it, s.queue.get? i = some it → invAt it

theorem startGen_inv (s : TTSState) (k : Nat) (h : ttsInv s) :
    ttsInv (startGen s k) := by
  obtain ⟨h1, h2, h3⟩ := h
  obtain ⟨hp, hc, hs, -, -, -⟩ := startGen_fields s k
  refine ⟨by rw [hp, hc]; exact h1, by rw [hs]; exact h2, ?_⟩
  intro i hi it hit
  rw [hc] at hi
  rcases startGen_get? s k i with hsame | ⟨it0, hit0, hp0, hmod⟩
  · rw [hsame] at hit
    exact h3 i hi it hit
  · rw [hmod] at hit
    injection hit with hit
    subst hit
    obtain ⟨-, -, -, h4⟩ := h3 i hi it0 hit0
    refine ⟨(fun hr => nomatch hr), (fun hx => nomatch hx),
      (fun hx => nomatch hx), ?_⟩
    intro hr
    rcases h4 hr with h' | h' <;> (rw [hp0] at h'; exact absurd h' (by decide))

theorem fire_inv (synth : Nat → Option (List Char)) (s : TTSState) (k : Nat)
    (s' : TTSState) (h : fireCompletion synth s k = some s') (hinv : ttsInv s) :
    ttsInv s' := by
  obtain ⟨h1, h2, h3⟩ := hinv
  unfold fireCompletion at h
  split at h
  · exact Option.noConfusion h
  · rename_i item hk
    have hklt : k < s.queue.length := (List.get?_eq_some.mp hk).1
    split at h
    · rename_i hguard
      split at h
      · rename_i hsy
        injection h with h
        subst h
        refine ⟨h1, h2, ?_⟩
        intro i hi it hit
        replace hi : s.currentIndex ≤ i := hi
        replace hit : (s.queue.set k
            { item with status := TStatus.cancelled, resolved := true }).get? i
            = some it := hit
        by_cases hik : k = i
        · subst hik
          rw [List.get?_set_eq_of_lt _ hklt] at hit
          injection hit with hit
          subst hit
          exact ⟨(fun hr => nomatch hr), (fun hx => nomatch hx),
            (fun hx => nomatch hx), (fun _ => Or.inr rfl)⟩
        · rw [List.get?_set_ne _ _ hik] at hit
          exact h3 i hi it hit
      · rename_i buf hsy
        split at h
        · rename_i hstop
          rw [h2] at hstop
          exact Bool.noConfusion hstop
        · rename_i hstop
          injection h with h
          subst h
          refine ⟨h1, h2, ?_⟩
          intro i hi it hit
          replace hi : s.currentIndex ≤ i := hi
          replace hit : (s.queue.set k
              { item with
                audioBuffer := some buf
                status := TStatus.ready
                resolved := true }).get? i = some it := hit
          by_cases hik : k = i
          · subst hik
            rw [List.get?_set_eq_of_lt _ hklt] at hit
            injection hit with hit
            subst hit
            exact ⟨(fun _ => rfl), (fun hx => nomatch hx),
              (fun hx => nomatch hx), (fun _ => Or.inl rfl)⟩
          · rw [List.get?_set_ne _ _ hik] at hit
            exact h3 i hi it hit
    · exact Option.noConfusion h

theorem head_inv (s s' : TTSState) (h : headStep s = some s') (hinv : ttsInv s) :
    ttsInv s' := by
  unfold headStep at h
  split at h
  · exact Option.noConfusion h
  · split at h
    · split at h
      · exact Option.noConfusion h
      · split at h
        · exact Option.noConfusion h
        · rename_i item hcur
          split at h
          · injection h with h
            subst h
            obtain ⟨a1, a2, a3⟩ := startGen_inv s s.currentIndex hinv
            exact ⟨a1, a2, a3⟩
          · injection h with h
            subst h
            exact ⟨hinv.1, hinv.2.1, hinv.2.2⟩
    · injection h with h
      subst h
      exact ⟨hinv.1, hinv.2.1, hinv.2.2⟩

theorem body_inv (connected : Nat → Bool) (s s' : TTSState)
    (h : bodyStep connected s = some s') (hinv : ttsInv s) : ttsInv s' := by
  obtain ⟨h1, h2, h3⟩ := hinv
  unfold bodyStep at h
  split at h
  · exact Option.noConfusion h
  · split at h
    · exact Option.noConfusion h
    · rename_i item hcur
      obtain ⟨ib, ipl, icp, ires⟩ := h3 s.currentIndex (le_refl _) item hcur
      split at h
      · exact Option.noConfusion h
      · rename_i hblocked
        split at h
        · rename_i hbrk
          injection h with h
          subst h
          exact ⟨h1, h2, h3⟩
        · rename_i hbrk
          split at h
          · rename_i hplay
            injection h with h
            subst h
            refine ⟨?_, ?_, ?_⟩
            · show (s.plays ++ [(s.currentIndex, connected s.plays.length)]).map
                  Prod.fst = List.range (s.currentIndex + 1)
              have hr : List.range (s.currentIndex + 1) =
                  List.range s.currentIndex ++ [s.currentIndex] := by
                rw [Nat.add_one]
                exact List.range_succ _
              rw [List.map_append, h1, hr]
              rfl
            · show (startGen (startGen s (s.currentIndex + 1))
                  (s.currentIndex + 2)).isStopped = false
              rw [(startGen_fields _ _).2.2.1, (startGen_fields _ _).2.2.1]
              exact h2
            · intro i hi it hit
              replace hi : s.currentIndex + 1 ≤ i := hi
              replace hit : ((startGen (startGen s (s.currentIndex + 1))
                  (s.currentIndex + 2)).queue.set s.currentIndex
                  { item with status := TStatus.completed }).get? i = some it := hit
              have hic : s.currentIndex ≠ i := by omega
              rw [List.get?_set_ne _ _ hic] at hit
              have hinv2 : ttsInv (startGen (startGen s (s.currentIndex + 1))
                  (s.currentIndex + 2)) :=
                startGen_inv _ _ (startGen_inv _ _ ⟨h1, h2, h3⟩)
              have hcursor : (startGen (startGen s (s.currentIndex + 1))
                  (s.currentIndex + 2)).currentIndex = s.currentIndex := by
                rw [(startGen_fields _ _).2.1, (startGen_fields _ _).2.1]
              exact hinv2.2.2 i (by rw [hcursor]; omega) it hit
          · rename_i hplay
            exfalso
            have hready : item.status = .ready := by
              cases hst : item.status with
              | pending =>
                exfalso
                cases hr : item.resolved with
                | false => exact hblocked ⟨Or.inl hst, hr⟩
                | true =>
                  rcases ires hr with h' | h' <;> rw [hst] at h' <;>
                    exact absurd h' (by decide)
              | generating =>
                exfalso
                cases hr : item.resolved with
                | false => exact hblocked ⟨Or.inr hst, hr⟩
                | true =>
                  rcases ires hr with h' | h' <;> rw [hst] at h' <;>
                    exact absurd h' (by decide)
              | ready => rfl
              | playing => exact absurd hst ipl
              | completed => exact absurd hst icp
              | cancelled => exact absurd (Or.inr hst) hbrk
            exact hplay ⟨ib hready, hready⟩

theorem tts_inv_step (synth : Nat → Option (List Char)) (connected : Nat → Bool)
    (e : TTSEvent) (s s' : TTSState) (h : applyEvent synth connected e s = some s')
    (hinv : ttsInv s) : ttsInv s' := by
  cases e with
  | fire i => exact fire_inv synth s i s' h hinv
  | head => exact head_inv s s' h hinv
  | body => exact body_inv connected s s' h hinv

theorem tts_inv_reachable (synth : Nat → Option (List Char))
    (connected : Nat → Bool) (s0 s : TTSState)
    (h : TTSReachable synth connected s0 s) (hinv : ttsInv s0) : ttsInv s := by
  induction h with
  | refl => exact hinv
  | tail _ hstep ih =>
    obtain ⟨e, he⟩ := hstep
    exact tts_inv_step _ _ e _ _ he ih

theorem tts_inv_init (chunks : List (List Char)) : ttsInv (initTTS chunks) := by
  have hbase : ttsInv (initTTSBase chunks) := by
    refine ⟨rfl, rfl, ?_⟩
    intro i hi it hit
    replace hit : ((chunks.map
        (fun t => (⟨t, none, .pending, false⟩ : TItem))).get? i) = some it := hit
    rw [List.get?_map] at hit
    rcases hm : chunks.get? i with _ | t
    · rw [hm] at hit
      exact Option.noConfusion hit
    · rw [hm] at hit
      injection hit with hit
      subst hit
      exact ⟨(fun hr => nomatch hr), (fun hx => nomatch hx),
        (fun hx => nomatch hx), (fun hr => nomatch hr)⟩
  unfold initTTS
  split
  · exact startGen_inv _ _ (startGen_inv _ _ hbase)
  · exact startGen_inv _ _ hbase

/-- **C1.** For every chunk queue, every synthesis-result oracle, every
per-chunk playback-target choice, and **every order in which the concurrent
synthesis calls complete**, the handoff log of every reachable scheduler
state is exactly `0, 1, 2, …` — chunks are handed to the playback target in
enqueue (cursor) order, because the loop awaits the pending synthesis of the
chunk at the cursor before playing it, even when later chunks finished
first. -/
theorem tts_playback_order_eq_enqueue_order (synth : Nat → Option (List Char))
    (connected : Nat → Bool) (chunks : List (List Char)) (s : TTSState)
    (h : TTSReachable synth connected (initTTS chunks) s) :
    s.plays.map Prod.fst = List.range s.plays.length := by
  obtain ⟨h1, -, -⟩ := tts_inv_reachable synth connected _ s h (tts_inv_init chunks)
  have hlen : s.plays.length = s.currentIndex := by
    have := congrArg List.length h1
    simpa using this
  rw [hlen, h1]

/-- Witness for C1 at the initial state of a two-chunk stream. -/
theorem tts_playback_order_witness :
    TTSReachable (fun _ => some ['x']) (fun _ => false)
        (initTTS [['h', 'i'], ['y', 'o']]) (initTTS [['h', 'i'], ['y', 'o']]) ∧
      (initTTS [['h', 'i'], ['y', 'o']]).plays.map Prod.fst =
        List.range ((initTTS [['h', 'i'], ['y', 'o']]).plays.length) :=
  ⟨Relation.ReflTransGen.refl,
    tts_playback_order_eq_enqueue_order (fun _ => some ['x']) (fun _ => false)
      [['h', 'i'], ['y', 'o']] _ Relation.ReflTransGen.refl⟩

/-! ### C3: what actually happens when one chunk's synthesis fails -/

theorem runEvents_reachable (synth : Nat → Option (List Char))
    (connected : Nat → Bool) :
    ∀ (es : List TTSEvent) (s s' : TTSState),
      runEvents synth connected es s = some s' →
      TTSReachable synth connected s s' := by
  intro es
  induction es with
  | nil =>
    intro s s' h
    injection h with h
    subst h
    exact Relation.ReflTransGen.refl
  | cons e rest ih =>
    intro s s' h
    unfold runEvents at h
    split at h
    · exact Option.noConfusion h
    · rename_i smid hmid
      exact Relation.ReflTransGen.head ⟨e, hmid⟩ (ih smid s' h)

def c3Synth : Nat → Option (List Char) := fun i => if i = 1 then some ['x'] else none

def c3Conn : Nat → Bool := fun _ => false

def c3Chunks : List (List Char) := [['a'], ['b']]

def c3Final : TTSState :=
  (runEvents c3Synth c3Conn [.fire 0, .fire 1, .head, .body]
    (initTTS c3Chunks)).getD (initTTS [])

/-- **C3 counterexample.** Chunk 0's synthesis fails, chunk 1's succeeds.
The scheduler reaches a terminal state (`pc = done`, state `idle`,
`onComplete` fired) in which chunk 0 is `cancelled` — but the loop has
broken: chunk 1 is `ready` (its synthesis succeeded) yet was never handed to
the playback target (`plays = []`), contradicting the claim that the
scheduler proceeds past the failed chunk and still plays later chunks. -/
theorem tts_failed_chunk_counterexample :
    TTSReachable c3Synth c3Conn (initTTS c3Chunks) c3Final ∧
    c3Synth 0 = none ∧
    c3Synth 1 = some ['x'] ∧
    (c3Final.queue.get? 0).map TItem.status = some .cancelled ∧
    (c3Final.queue.get? 1).map TItem.status = some .ready ∧
    c3Final.pc = .done ∧
    c3Final.state = .idle ∧
    c3Final.completeFired = true ∧
    c3Final.plays = [] :=
  ⟨runEvents_reachable c3Synth c3Conn [.fire 0, .fire 1, .head, .body]
      (initTTS c3Chunks) c3Final (by decide),
    by decide, by decide, by decide, by decide, by decide, by decide, by decide,
    by decide⟩

/-- **C3 (amended).** A synthesis failure for one chunk marks that chunk
`cancelled` (the `.catch` handler), and when the playback loop reaches a
cancelled chunk at the cursor it does **not** proceed to the next chunk: the
loop breaks with the handoff log and cursor unchanged, and the stream ends —
state `idle`, `onComplete` fired when not stopped — so chunks after the
failed one are not played even when their synthesis succeeds. -/
theorem tts_failed_chunk_cancelled_then_loop_breaks
    (synth : Nat → Option (List Char)) (connected : Nat → Bool) :
    (∀ (s : TTSState) (i : Nat) (s' : TTSState),
      fireCompletion synth s i = some s' → synth i = none →
      (s'.queue.get? i).map TItem.status = some .cancelled) ∧
    (∀ s s' : TTSState,
      bodyStep connected s = some s' →
      (s.queue.get? s.currentIndex).map TItem.status = some .cancelled →
      s'.pc = .done ∧ s'.plays = s.plays ∧ s'.currentIndex = s.currentIndex ∧
        s'.state = .idle ∧ (s.isStopped = false → s'.completeFired = true)) := by
  constructor
  · intro s i s' h hsy
    unfold fireCompletion at h
    split at h
    · exact Option.noConfusion h
    · rename_i item hk
      split at h
      · rename_i hguard
        split at h
        · injection h with h
          subst h
          show ((s.queue.set i
            { item with status := TStatus.cancelled, resolved := true }).get? i).map
              TItem.status = some TStatus.cancelled
          rw [List.get?_set_eq_of_lt _ (List.get?_eq_some.mp hk).1]
          rfl
        · rename_i buf hsy0
          rw [hsy] at hsy0
          exact Option.noConfusion hsy0
      · exact Option.noConfusion h
  · intro s s' h hcanc
    unfold bodyStep at h
    split at h
    · exact Option.noConfusion h
    · split at h
      · exact Option.noConfusion h
      · rename_i item hcur
        rw [hcur] at hcanc
        replace hcanc : item.status = TStatus.cancelled := by
          injection hcanc
        split at h
        · exact Option.noConfusion h
        · rename_i hblocked
          split at h
          · injection h with h
            subst h
            refine ⟨rfl, rfl, rfl, rfl, ?_⟩
            intro hns
            show (s.completeFired || !s.isStopped) = true
            rw [hns]
            simp
          · rename_i hbrk
            exact absurd (Or.inr hcanc) hbrk

def c3Mid : TTSState :=
  (runEvents c3Synth c3Conn [.fire 0, .fire 1, .head]
    (initTTS c3Chunks)).getD (initTTS [])

def c3AfterFire : TTSState :=
  (fireCompletion c3Synth (initTTS c3Chunks) 0).getD (initTTS [])

def c3AfterBody : TTSState := (bodyStep c3Conn c3Mid).getD (initTTS [])

/-- Witness for the amended C3 at the concrete failing stream. -/
theorem tts_failed_chunk_cancelled_then_loop_breaks_witness :
    (fireCompletion c3Synth (initTTS c3Chunks) 0 = some c3AfterFire ∧
      c3Synth 0 = none ∧
      (c3AfterFire.queue.get? 0).map TItem.status = some .cancelled) ∧
    (bodyStep c3Conn c3Mid = some c3AfterBody ∧
      (c3Mid.queue.get? c3Mid.currentIndex).map TItem.status = some .cancelled ∧
      (c3AfterBody.pc = .done ∧ c3AfterBody.plays = c3Mid.plays ∧
        c3AfterBody.currentIndex = c3Mid.currentIndex ∧
        c3AfterBody.state = .idle ∧
        (c3Mid.isStopped = false → c3AfterBody.completeFired = true))) :=
  ⟨⟨by decide, by decide,
      (tts_failed_chunk_cancelled_then_loop_breaks c3Synth c3Conn).1
        (initTTS c3Chunks) 0 c3AfterFire (by decide) (by decide)⟩,
    ⟨by decide, by decide,
      (tts_failed_chunk_cancelled_then_loop_breaks c3Synth c3Conn).2
        c3Mid c3AfterBody (by decide) (by decide)⟩⟩
